import Mathlib

/-!
Verification of the lytter scrobble-ingestion core.

This file gives a shallow embedding of the ingestion/reconciliation layer of
the repository:

* `src/lytter/app.py` — the Event Store schema (`musiclibrary`, with a
  `UNIQUE` constraint on `timestamp`), `GetScrobbles.get_latest_timestamp`,
  `GetScrobbles.get_scrobbles` (the paginated sync walk with its incremental
  stop heuristics), `normalize_text` and `search_artists`;
* `src/lytter/update_db.py` — the CLI dispatch choosing full / thorough /
  quick incremental modes;
* `gap_checker.py` — `find_timestamp_gaps`, `fetch_scrobbles_in_range` and
  `fill_gaps`.

The remote Last.fm API is abstracted as oracle functions passed in explicitly
(a page fetch that may fail, returning `Option`), and the SQLite table is
modelled as a list of rows in insertion order; the `UNIQUE (timestamp)`
constraint is reflected by the existence checks the code itself performs
before each insert.  External libraries (`unicodedata`, `rapidfuzz`) are
modelled by explicit tables restricted to the code points exercised here and
by an oracle parameter, respectively.
-/

/-- A row of the `musiclibrary` table (`init_db` in `app.py`): artist, the
optional MusicBrainz identifiers, album, track and the unique timestamp.
The `id` autoincrement column is the list position and is not modelled. -/
structure Scrobble where
  artist : String
  artist_mbid : String
  album : String
  album_mbid : String
  track : String
  track_mbid : String
  timestamp : Nat
deriving DecidableEq, Repr

/-- A raw track item as returned by the remote API: the now-playing marker
(`"@attr"]["nowplaying"]`), whether the item carries a `"date"` field, and
the scrobble payload. -/
structure Track where
  nowplaying : Bool
  hasDate : Bool
  s : Scrobble
deriving DecidableEq, Repr

/-- The existence check `SELECT 1 FROM musiclibrary WHERE timestamp = ?`
performed by both `get_scrobbles` and `fill_gaps` before inserting. -/
def existsTs (db : List Scrobble) (t : Nat) : Bool :=
  db.any (fun s => s.timestamp == t)

/-- The `UNIQUE (timestamp)` constraint of the `musiclibrary` schema: no two
rows share a timestamp. -/
def UniqueTs (db : List Scrobble) : Prop :=
  (db.map (fun s => s.timestamp)).Nodup

instance (db : List Scrobble) : Decidable (UniqueTs db) := by
  unfold UniqueTs; infer_instance

/-- The `SELECT MAX(timestamp) FROM musiclibrary` aggregate: `none` on an
empty table, otherwise the maximum stored timestamp. -/
def sqlMaxTimestamp : List Scrobble → Option Nat
  | [] => none
  | s :: rest => some ((rest.map (fun x => x.timestamp)).foldr max s.timestamp)

/-- `GetScrobbles.get_latest_timestamp` (`app.py` lines 141-148): runs the
`MAX(timestamp)` query and returns `int(result) if result else 0`, i.e. the
sentinel `0` when the table is empty (and also when the maximum itself is
the falsy value `0`, which returns the same number). -/
def get_latest_timestamp (db : List Scrobble) : Nat :=
  match sqlMaxTimestamp db with
  | none => 0
  | some m => m

/-- Modelled from the spec: `latestTimestamp() -> int | none` — "maximum
stored `timestamp`, or none if empty".  This is the spec's contract, kept
separate from `get_latest_timestamp` (the code), to compare the two. -/
def latestTimestamp_spec : List Scrobble → Option Nat
  | [] => none
  | s :: rest => some ((rest.map (fun x => x.timestamp)).foldr max s.timestamp)

/-- `CONSECUTIVE_SCROBBLES_THRESHOLD` (`app.py` line 64). -/
def CONSECUTIVE_SCROBBLES_THRESHOLD : Nat := 50

/-- Mutable state of the `get_scrobbles` walk: the database connection's
view of the table, `new_scrobbles_count`, and `consecutive_old_scrobbles`. -/
structure SyncSt where
  db : List Scrobble
  newCount : Nat
  consec : Nat
deriving DecidableEq, Repr

/-- Processing of one track item inside the page loop of `get_scrobbles`
(`app.py` lines 222-277).  Returns the new state, the updated
`page_new_count`, and whether the early-return stop (lines 238-248) fired.
Now-playing items are skipped; an already-present timestamp bumps the
consecutive counter and may trigger the stop; a new timestamp is inserted,
resetting the counter. -/
def procTrack (full : Bool) (latest : Nat) (st : SyncSt) (pageNew : Nat)
    (t : Track) : SyncSt × Nat × Bool :=
  if t.nowplaying then (st, pageNew, false)
  else if existsTs st.db t.s.timestamp then
    if CONSECUTIVE_SCROBBLES_THRESHOLD ≤ st.consec + 1 ∧ full = false ∧
        0 < latest ∧ t.s.timestamp ≤ latest then
      ({ st with consec := st.consec + 1 }, pageNew, true)
    else
      ({ st with consec := st.consec + 1 }, pageNew, false)
  else
    ({ db := st.db ++ [t.s], newCount := st.newCount + 1, consec := 0 },
      pageNew + 1, false)

/-- The inner `for scrobble in ...` loop over one page's track list; the
`Bool` component records whether the early return fired, in which case the
remaining items of the page are not processed. -/
def procTracks (full : Bool) (latest : Nat) (st : SyncSt) (pageNew : Nat) :
    List Track → SyncSt × Nat × Bool
  | [] => (st, pageNew, false)
  | t :: ts =>
    let r := procTrack full latest st pageNew t
    if r.2.2 then r
    else procTracks full latest r.1 r.2.1 ts

/-- The outer `for page_ in range(1, total_pages + 1)` loop of
`get_scrobbles` (`app.py` lines 208-282).  A `none` page models the
`except` branch at lines 217-219: the page is skipped and the walk
continues.  After a page, the early return (stop flag) ends the walk, and
for incremental runs a page with zero newly inserted scrobbles breaks the
loop (lines 279-282). -/
def procPages (full : Bool) (latest : Nat) (st : SyncSt) :
    List (Option (List Track)) → SyncSt
  | [] => st
  | none :: ps => procPages full latest st ps
  | some tracks :: ps =>
    let r := procTracks full latest st 0 tracks
    if r.2.2 then r.1
    else if full = false ∧ r.2.1 = 0 then r.1
    else procPages full latest r.1 ps

/-- The page-ceiling computation of `get_scrobbles` (`app.py` lines
190-197): clamp `totalPages` by the explicit `pages` argument when positive,
then clamp every non-full (incremental) run to 5 pages. -/
def effectivePages (totalPages pages : Nat) (full : Bool) : Nat :=
  let tp := if 0 < pages then min totalPages pages else totalPages
  if full then tp else min tp 5

/-- `GetScrobbles.get_scrobbles` (`app.py` lines 150-286).  `firstReq` is
the initial request that learns `totalPages`; when it fails (`none`) the
function returns 0 without touching the store (lines 179-188).  `fetch`
is the per-page oracle of the walk.  Returns the final table and
`new_scrobbles_count`. -/
def get_scrobbles (db0 : List Scrobble) (pages : Nat) (full : Bool)
    (firstReq : Option Nat) (fetch : Nat → Option (List Track)) :
    List Scrobble × Nat :=
  let latest := if full then 0 else get_latest_timestamp db0
  match firstReq with
  | none => (db0, 0)
  | some totalPages =>
    let tp := effectivePages totalPages pages full
    let st := procPages full latest { db := db0, newCount := 0, consec := 0 }
      ((List.range tp).map (fun i => fetch (i + 1)))
    (st.db, st.newCount)

/-- The `--thorough` dispatch in `update_db.py` `main` (lines 46-53): use
the explicit `--pages` argument when positive, otherwise 20 ("Check 20
pages instead of 5"), passed to `get_scrobbles` with `full` left `False`. -/
def thoroughPagesArg (pagesArg : Nat) : Nat :=
  if 0 < pagesArg then pagesArg else 20

/-- A detected gap (`gap_checker.py` lines 51-59): the adjacent pair of
stored timestamps (newer first, as the query is descending) and the
magnitude `newer - older`.  The derived `newer_time`/`older_time` datetime
renderings are presentation only and not modelled. -/
structure Gap where
  newer_ts : Nat
  older_ts : Nat
  gap_seconds : Int
deriving DecidableEq, Repr

/-- Descending insertion of one timestamp, used to model the
`ORDER BY timestamp DESC` of the gap query. -/
def insertDesc (t : Nat) : List Nat → List Nat
  | [] => [t]
  | x :: xs => if x ≤ t then t :: x :: xs else x :: insertDesc t xs

/-- Descending sort, modelling `ORDER BY timestamp DESC`. -/
def sortDesc : List Nat → List Nat
  | [] => []
  | x :: xs => insertDesc x (sortDesc xs)

/-- The timestamps `find_timestamp_gaps` reads: those strictly above the
cutoff (`WHERE timestamp > ?`), in descending order. -/
def windowTimestamps (db : List Scrobble) (cutoff : Nat) : List Nat :=
  sortDesc ((db.map (fun s => s.timestamp)).filter (fun t => cutoff < t))

/-- The adjacent-pair scan of `find_timestamp_gaps` (`gap_checker.py` lines
47-59): for every adjacent pair of the descending list, emit a `Gap` when
the difference strictly exceeds the threshold. -/
def gapsOf (threshold : Int) : List Nat → List Gap
  | a :: b :: rest =>
    if threshold < (a : Int) - (b : Int) then
      ⟨a, b, (a : Int) - (b : Int)⟩ :: gapsOf threshold (b :: rest)
    else gapsOf threshold (b :: rest)
  | _ => []

/-- `find_timestamp_gaps` (`gap_checker.py` lines 22-61), with the cutoff
time (`now - hours_back`) passed as an explicit epoch value. -/
def find_timestamp_gaps (db : List Scrobble) (cutoff : Nat)
    (gap_threshold : Int) : List Gap :=
  gapsOf gap_threshold (windowTimestamps db cutoff)

/-- The `while True` page loop of `fetch_scrobbles_in_range`
(`gap_checker.py` lines 71-118).  The oracle returns, per page, the track
list and the response's `totalPages`; `none` models the `except` branch
(line 116-118), which breaks out of the loop keeping what was collected.
An empty track list also breaks.  `fuel` bounds the loop (the Python loop
is unbounded; every claim here is settled at finite fuel). -/
def fetchRangeLoop (f : Nat → Option (List Track × Nat))
    (acc : List Scrobble) (page : Nat) : Nat → List Scrobble
  | 0 => acc
  | fuel + 1 =>
    match f page with
    | none => acc
    | some (tracks, totalPages) =>
      if tracks = [] then acc
      else
        let acc' := acc ++
          ((tracks.filter (fun t => t.nowplaying = false ∧ t.hasDate = true)).map
            (fun t => t.s))
        if totalPages ≤ page then acc'
        else fetchRangeLoop f acc' (page + 1) fuel

/-- `fetch_scrobbles_in_range` (`gap_checker.py` lines 64-120): start at
page 1 with an empty accumulator. -/
def fetch_scrobbles_in_range (f : Nat → Option (List Track × Nat))
    (fuel : Nat) : List Scrobble :=
  fetchRangeLoop f [] 1 fuel

/-- The per-scrobble body of `fill_gaps` (`gap_checker.py` lines 143-173)
over one gap's fetched scrobbles: skip timestamps already present; in
dry-run mode only count, otherwise insert and count.  Returns the table and
`added_count`. -/
def fillOne (dry : Bool) : List Scrobble → List Scrobble → List Scrobble × Nat
  | db, [] => (db, 0)
  | db, s :: ss =>
    if existsTs db s.timestamp then fillOne dry db ss
    else if dry then
      let r := fillOne dry db ss
      (r.1, r.2 + 1)
    else
      let r := fillOne dry (db ++ [s]) ss
      (r.1, r.2 + 1)

/-- `fill_gaps` (`gap_checker.py` lines 123-182): iterate the gaps, fetch
each gap's range through the oracle `fetch`, process it with `fillOne`, and
accumulate `total_added`.  An empty gap list returns 0 immediately (line
125-127), which coincides with the fold's base case. -/
def fill_gaps (dry : Bool) (fetch : Gap → List Scrobble)
    (db : List Scrobble) : List Gap → List Scrobble × Nat
  | [] => (db, 0)
  | g :: gs =>
    let r := fillOne dry db (fetch g)
    let r' := fill_gaps dry fetch r.1 gs
    (r'.1, r.2 + r'.2)

/-- All scrobbles fetched across a run's gap list, in processing order. -/
def fetchedAll (fetch : Gap → List Scrobble) : List Gap → List Scrobble
  | [] => []
  | g :: gs => fetch g ++ fetchedAll fetch gs

/-- The combining diaeresis U+0308 produced by NFD decomposition of `ü`. -/
def combiningDiaeresis : Char := Char.ofNat 0x308

/-- The combining acute accent U+0301 produced by NFD decomposition of `é`. -/
def combiningAcute : Char := Char.ofNat 0x301

/-- NFD canonical decomposition (`unicodedata.normalize("NFD", ·)`),
tabulated for the code points exercised by this repository's data and the
`normalize_text` docstring examples (`ü`, `Ü`, `é`, `É`); every other
character used here is ASCII and decomposes to itself. -/
def decompNFD (c : Char) : List Char :=
  if c = 'ü' then ['u', combiningDiaeresis]
  else if c = 'Ü' then ['U', combiningDiaeresis]
  else if c = 'é' then ['e', combiningAcute]
  else if c = 'É' then ['E', combiningAcute]
  else [c]

/-- `unicodedata.category(c) == "Mn"` for the decomposed output: the
Combining Diacritical Marks block U+0300-U+036F is entirely category Mn. -/
def isMn (c : Char) : Bool :=
  0x300 ≤ c.toNat && c.toNat ≤ 0x36F

/-- `normalize_text` (`app.py` lines 67-93): NFD-decompose, then drop the
combining (category Mn) characters. -/
def normalize_text (s : String) : String :=
  String.mk ((s.data.foldr (fun c acc => decompNFD c ++ acc) []).filter
    (fun c => !(isMn c)))

/-- Python `str.lower`, tabulated for the code points exercised here:
ASCII letters via `Char.toLower`, plus `Ü → ü` and `É → é`. -/
def pyLower (c : Char) : Char :=
  if c = 'Ü' then 'ü' else if c = 'É' then 'é' else c.toLower

/-- Python `str.lower` over a whole string. -/
def strLower (s : String) : String :=
  String.mk (s.data.map pyLower)

/-- Python's substring test `needle in hay` over character lists. -/
def containsSub (needle : List Char) : List Char → Bool
  | [] => needle.isEmpty
  | c :: cs => needle.isPrefixOf (c :: cs) || containsSub needle cs

/-- One search hit (`search_artists` result entries): artist name, play
count, similarity score. -/
structure SearchResult where
  artist : String
  plays : Nat
  similarity : Nat
deriving DecidableEq, Repr

/-- First-occurrence deduplication with an explicit seen-set, modelling the
key set of the `GROUP BY artist` dictionary in table order. -/
def dedupFirstAux (seen : List String) : List String → List String
  | [] => []
  | a :: as =>
    if seen.contains a then dedupFirstAux seen as
    else a :: dedupFirstAux (seen ++ [a]) as

/-- First-occurrence deduplication of a list of artist names. -/
def dedupFirst (l : List String) : List String :=
  dedupFirstAux [] l

/-- The `SELECT artist, COUNT(*) ... GROUP BY artist` query of
`search_artists` (`app.py` lines 728-733). -/
def artistCounts (db : List Scrobble) : List (String × Nat) :=
  (dedupFirst (db.map (fun s => s.artist))).map
    (fun a => (a, (db.filter (fun s => s.artist = a)).length))

/-- Strict comparison on the sort key `(similarity, plays)`. -/
def resLt (x y : SearchResult) : Bool :=
  x.similarity < y.similarity ||
    (x.similarity == y.similarity && x.plays < y.plays)

/-- Stable descending insertion for the final
`results.sort(key=..., reverse=True)`. -/
def insertResDesc (x : SearchResult) : List SearchResult → List SearchResult
  | [] => [x]
  | y :: ys => if resLt y x then x :: y :: ys else y :: insertResDesc x ys

/-- Stable descending sort by `(similarity, plays)`. -/
def sortResDesc : List SearchResult → List SearchResult
  | [] => []
  | x :: xs => insertResDesc x (sortResDesc xs)

/-- `search_artists` (`app.py` lines 701-788).  `fz` is the
`rapidfuzz.process.extract` oracle (query, remaining candidates,
`limit * 2`) already applying the WRatio scorer, rounding and the
score cutoff of 60.  Queries shorter than 2 characters return the empty
result list; tier 1 is the case- and accent-insensitive substring match at
similarity 100; tier 2 runs the fuzzy oracle over the artists tier 1 did
not match; the merged list is sorted descending by (similarity, plays) and
truncated to `limit`. -/
def search_artists (fz : String → List String → Nat → List (String × Nat))
    (db : List Scrobble) (q : String) (limit : Nat) : List SearchResult :=
  if q.length < 2 then []
  else
    let allArtists := artistCounts db
    if allArtists = [] then []
    else
      let qLower := strLower q
      let qNorm := normalize_text qLower
      let tier1 := allArtists.filter (fun ap =>
        containsSub qLower.data (strLower ap.1).data ||
          containsSub qNorm.data (normalize_text (strLower ap.1)).data)
      let t1res := tier1.map (fun ap => SearchResult.mk ap.1 ap.2 100)
      let t1names := tier1.map (fun ap => ap.1)
      let remaining := (allArtists.filter
        (fun ap => !(t1names.contains ap.1))).map (fun ap => ap.1)
      let fzres := if remaining = [] then [] else
        (fz q remaining (limit * 2)).map (fun m =>
          SearchResult.mk m.1 ((allArtists.lookup m.1).getD 0) m.2)
      (sortResDesc (t1res ++ fzres)).take limit

/-- A fixture scrobble for concrete witnesses: artist name and timestamp. -/
def fixtureScrobble (a : String) (t : Nat) : Scrobble :=
  ⟨a, "", "", "", "t", "", t⟩

/-- A fixture completed (not now-playing, dated) track item. -/
def fixtureTrack (a : String) (t : Nat) : Track :=
  ⟨false, true, fixtureScrobble a t⟩

/-- A range-fetch oracle whose page 2 fails transiently while pages 1 and 3
are available (each reporting `totalPages = 3`). -/
def flakyRangeOracle : Nat → Option (List Track × Nat) := fun p =>
  if p = 1 then some ([fixtureTrack "A" 100], 3)
  else if p = 2 then none
  else some ([fixtureTrack "C" 300], 3)

/-- One mutating operation against the Event Store: a sync run
(`get_scrobbles`, full or incremental, with its page oracle) or a backfill
run (`fill_gaps`, dry or applying, with its range oracle). -/
inductive Op where
  | sync (pages : Nat) (full : Bool) (firstReq : Option Nat)
      (fetch : Nat → Option (List Track))
  | backfill (dry : Bool) (fetch : Gap → List Scrobble) (gaps : List Gap)

/-- The table after running one operation. -/
def applyOp (db : List Scrobble) : Op → List Scrobble
  | .sync pages full firstReq fetch =>
    (get_scrobbles db pages full firstReq fetch).1
  | .backfill dry fetch gaps => (fill_gaps dry fetch db gaps).1

/-- The table after a sequence of sync/backfill operations. -/
def runOps (db : List Scrobble) : List Op → List Scrobble
  | [] => db
  | op :: ops => runOps (applyOp db op) ops

/-- A concrete two-operation sequence (one incremental sync inserting one
event, one applying backfill inserting another) used as a witness input. -/
def opsFixture : List Op :=
  [Op.sync 0 false (some 1) (fun _ => some [fixtureTrack "A" 10]),
   Op.backfill false (fun _ => [fixtureScrobble "B" 20]) [⟨30, 1, 29⟩]]

theorem existsTs_eq_true_iff (db : List Scrobble) (t : Nat) :
    existsTs db t = true ↔ t ∈ db.map (fun s => s.timestamp) := by
  simp only [existsTs, List.any_eq_true, beq_iff_eq, List.mem_map]

theorem existsTs_eq_false_iff (db : List Scrobble) (t : Nat) :
    existsTs db t = false ↔ t ∉ db.map (fun s => s.timestamp) := by
  constructor
  · intro h hmem
    rw [← existsTs_eq_true_iff] at hmem
    simp [h] at hmem
  · intro h
    cases hb : existsTs db t
    · rfl
    · exact absurd ((existsTs_eq_true_iff db t).mp hb) h

theorem existsTs_append (a b : List Scrobble) (t : Nat) :
    existsTs (a ++ b) t = (existsTs a t || existsTs b t) := by
  simp [existsTs, List.any_append]

theorem UniqueTs_append_single {db : List Scrobble} {s : Scrobble}
    (h : UniqueTs db) (hn : existsTs db s.timestamp = false) :
    UniqueTs (db ++ [s]) := by
  unfold UniqueTs at h ⊢
  rw [List.map_append, List.nodup_append]
  refine ⟨h, List.nodup_singleton _, ?_⟩
  intro x hx hx'
  simp only [List.map_cons, List.map_nil, List.mem_singleton] at hx'
  subst hx'
  exact (existsTs_eq_false_iff db s.timestamp).mp hn hx

theorem procTrack_split (full : Bool) (latest : Nat) (st : SyncSt) (pn : Nat)
    (t : Track) :
    ((procTrack full latest st pn t).1.db = st.db ∧
      (procTrack full latest st pn t).1.newCount = st.newCount) ∨
    (existsTs st.db t.s.timestamp = false ∧
      (procTrack full latest st pn t).1.db = st.db ++ [t.s] ∧
      (procTrack full latest st pn t).1.newCount = st.newCount + 1) := by
  unfold procTrack
  split
  · exact Or.inl ⟨rfl, rfl⟩
  · split
    · split
      · exact Or.inl ⟨rfl, rfl⟩
      · exact Or.inl ⟨rfl, rfl⟩
    · rename_i h
      exact Or.inr ⟨by simpa using h, rfl, rfl⟩

theorem procTracks_inv (full : Bool) (latest : Nat) (tracks : List Track) :
    ∀ (st : SyncSt) (pn : Nat),
      (∃ r, (procTracks full latest st pn tracks).1.db = st.db ++ r) ∧
      (UniqueTs st.db → UniqueTs (procTracks full latest st pn tracks).1.db) ∧
      (procTracks full latest st pn tracks).1.db.length + st.newCount
        = st.db.length + (procTracks full latest st pn tracks).1.newCount := by
  induction tracks with
  | nil =>
    intro st pn
    exact ⟨⟨[], by simp [procTracks]⟩, fun h => by simpa [procTracks] using h,
      by simp [procTracks]⟩
  | cons t ts ih =>
    intro st pn
    simp only [procTracks]
    rcases procTrack_split full latest st pn t with ⟨hdb, hcnt⟩ | ⟨hex, hdb, hcnt⟩
    · by_cases hstop : (procTrack full latest st pn t).2.2 = true
      · simp only [hstop, if_true]
        have hlen : (procTrack full latest st pn t).1.db.length
            = st.db.length := by rw [hdb]
        refine ⟨⟨[], by simp [hdb]⟩, fun h => by rwa [hdb], by omega⟩
      · simp only [Bool.not_eq_true] at hstop
        simp only [hstop, Bool.false_eq_true, if_false]
        obtain ⟨⟨r, hr⟩, hu, hl⟩ :=
          ih (procTrack full latest st pn t).1 (procTrack full latest st pn t).2.1
        refine ⟨⟨r, by rw [hr, hdb]⟩, fun h => hu (by rwa [hdb]), ?_⟩
        rw [hdb] at hl
        omega
    · by_cases hstop : (procTrack full latest st pn t).2.2 = true
      · simp only [hstop, if_true]
        refine ⟨⟨[t.s], hdb⟩, fun h => ?_, ?_⟩
        · rw [hdb]; exact UniqueTs_append_single h hex
        · have : (procTrack full latest st pn t).1.db.length
              = st.db.length + 1 := by
            rw [hdb, List.length_append, List.length_singleton]
          omega
      · simp only [Bool.not_eq_true] at hstop
        simp only [hstop, Bool.false_eq_true, if_false]
        obtain ⟨⟨r, hr⟩, hu, hl⟩ :=
          ih (procTrack full latest st pn t).1 (procTrack full latest st pn t).2.1
        refine ⟨⟨t.s :: r, by rw [hr, hdb, List.append_assoc]; rfl⟩,
          fun h => hu (by rw [hdb]; exact UniqueTs_append_single h hex), ?_⟩
        have : (procTrack full latest st pn t).1.db.length
            = st.db.length + 1 := by
          rw [hdb, List.length_append, List.length_singleton]
        omega

theorem procPages_inv (full : Bool) (latest : Nat)
    (ps : List (Option (List Track))) :
    ∀ (st : SyncSt),
      (∃ r, (procPages full latest st ps).db = st.db ++ r) ∧
      (UniqueTs st.db → UniqueTs (procPages full latest st ps).db) ∧
      (procPages full latest st ps).db.length + st.newCount
        = st.db.length + (procPages full latest st ps).newCount := by
  induction ps with
  | nil =>
    intro st
    exact ⟨⟨[], by simp [procPages]⟩, fun h => by simpa [procPages] using h,
      by simp [procPages]⟩
  | cons p ps ih =>
    intro st
    cases p with
    | none => simpa [procPages] using ih st
    | some tracks =>
      simp only [procPages]
      obtain ⟨⟨r1, hr1⟩, hu1, hl1⟩ := procTracks_inv full latest tracks st 0
      split
      · exact ⟨⟨r1, hr1⟩, hu1, hl1⟩
      · split
        · exact ⟨⟨r1, hr1⟩, hu1, hl1⟩
        · obtain ⟨⟨r2, hr2⟩, hu2, hl2⟩ :=
            ih (procTracks full latest st 0 tracks).1
          refine ⟨⟨r1 ++ r2, by rw [hr2, hr1, List.append_assoc]⟩,
            fun h => hu2 (hu1 h), ?_⟩
          have : (procTracks full latest st 0 tracks).1.db.length
              = st.db.length + r1.length := by
            rw [hr1, List.length_append]
          omega

theorem get_scrobbles_inv (db0 : List Scrobble) (pages : Nat) (full : Bool)
    (firstReq : Option Nat) (fetch : Nat → Option (List Track)) :
    (∃ r, (get_scrobbles db0 pages full firstReq fetch).1 = db0 ++ r) ∧
    (UniqueTs db0 → UniqueTs (get_scrobbles db0 pages full firstReq fetch).1) ∧
    (get_scrobbles db0 pages full firstReq fetch).1.length
      = db0.length + (get_scrobbles db0 pages full firstReq fetch).2 := by
  cases firstReq with
  | none =>
    exact ⟨⟨[], by simp [get_scrobbles]⟩,
      fun h => by simpa [get_scrobbles] using h, by simp [get_scrobbles]⟩
  | some totalPages =>
    obtain ⟨⟨r, hr⟩, hu, hl⟩ := procPages_inv full
      (if full then 0 else get_latest_timestamp db0)
      ((List.range (effectivePages totalPages pages full)).map
        (fun i => fetch (i + 1)))
      { db := db0, newCount := 0, consec := 0 }
    exact ⟨⟨r, hr⟩, hu, by simpa [get_scrobbles] using hl⟩

theorem fillOne_inv (dry : Bool) (ss : List Scrobble) :
    ∀ (db : List Scrobble),
      (∃ r, (fillOne dry db ss).1 = db ++ r) ∧
      (UniqueTs db → UniqueTs (fillOne dry db ss).1) := by
  induction ss with
  | nil =>
    intro db
    exact ⟨⟨[], by simp [fillOne]⟩, fun h => by simpa [fillOne] using h⟩
  | cons s ss ih =>
    intro db
    by_cases hex : existsTs db s.timestamp = true
    · simpa [fillOne, hex] using ih db
    · simp only [Bool.not_eq_true] at hex
      cases dry with
      | true =>
        obtain ⟨⟨r, hr⟩, hu⟩ := ih db
        exact ⟨⟨r, by simp [fillOne, hex, hr]⟩,
          fun h => by simpa [fillOne, hex] using hu h⟩
      | false =>
        obtain ⟨⟨r, hr⟩, hu⟩ := ih (db ++ [s])
        refine ⟨⟨s :: r, by simp [fillOne, hex, hr]⟩, fun h => ?_⟩
        simp only [fillOne, hex, Bool.false_eq_true, if_false]
        exact hu (UniqueTs_append_single h hex)

theorem fill_gaps_inv (dry : Bool) (fetch : Gap → List Scrobble)
    (gaps : List Gap) :
    ∀ (db : List Scrobble),
      (∃ r, (fill_gaps dry fetch db gaps).1 = db ++ r) ∧
      (UniqueTs db → UniqueTs (fill_gaps dry fetch db gaps).1) := by
  induction gaps with
  | nil =>
    intro db
    exact ⟨⟨[], by simp [fill_gaps]⟩, fun h => by simpa [fill_gaps] using h⟩
  | cons g gs ih =>
    intro db
    obtain ⟨⟨r1, hr1⟩, hu1⟩ := fillOne_inv dry (fetch g) db
    obtain ⟨⟨r2, hr2⟩, hu2⟩ := ih (fillOne dry db (fetch g)).1
    refine ⟨⟨r1 ++ r2, ?_⟩, fun h => ?_⟩
    · simp only [fill_gaps]
      rw [hr2, hr1, List.append_assoc]
    · simp only [fill_gaps]
      exact hu2 (hu1 h)

theorem fillOne_dry (ss : List Scrobble) :
    ∀ db, fillOne true db ss
      = (db, (ss.filter (fun s => !(existsTs db s.timestamp))).length) := by
  induction ss with
  | nil => intro db; simp [fillOne]
  | cons s ss ih =>
    intro db
    by_cases hex : existsTs db s.timestamp = true
    · simp [fillOne, hex, ih db]
    · simp only [Bool.not_eq_true] at hex
      simp [fillOne, hex, ih db]

theorem existsTs_single_eq_false {s : Scrobble} {t : Nat}
    (h : t ≠ s.timestamp) : existsTs [s] t = false := by
  simp [existsTs]
  exact fun he => h he.symm

theorem fillOne_apply (ss : List Scrobble) :
    ∀ db, (ss.map (fun s => s.timestamp)).Nodup →
      fillOne false db ss
        = (db ++ ss.filter (fun s => !(existsTs db s.timestamp)),
            (ss.filter (fun s => !(existsTs db s.timestamp))).length) := by
  induction ss with
  | nil => intro db _; simp [fillOne]
  | cons s ss ih =>
    intro db hnd
    simp only [List.map_cons, List.nodup_cons] at hnd
    obtain ⟨hs, hnd⟩ := hnd
    by_cases hex : existsTs db s.timestamp = true
    · simp [fillOne, hex, ih db hnd]
    · simp only [Bool.not_eq_true] at hex
      have hfe : ss.filter (fun x => !(existsTs (db ++ [s]) x.timestamp))
          = ss.filter (fun x => !(existsTs db x.timestamp)) := by
        apply List.filter_congr
        intro x hx
        have hne : x.timestamp ≠ s.timestamp := by
          intro he
          exact hs (he ▸ List.mem_map_of_mem (fun s => s.timestamp) hx)
        rw [existsTs_append, existsTs_single_eq_false hne, Bool.or_false]
      simp only [fillOne, hex, Bool.false_eq_true, if_false]
      rw [ih (db ++ [s]) hnd, hfe]
      simp [List.filter_cons, hex, List.append_assoc]

theorem fill_gaps_dry (fetch : Gap → List Scrobble) (gaps : List Gap) :
    ∀ db, fill_gaps true fetch db gaps
      = (db, ((fetchedAll fetch gaps).filter
          (fun s => !(existsTs db s.timestamp))).length) := by
  induction gaps with
  | nil => intro db; simp [fill_gaps, fetchedAll]
  | cons g gs ih =>
    intro db
    simp [fill_gaps, fillOne_dry, ih db, fetchedAll, List.filter_append]

theorem map_ts_filter_subset (p : Scrobble → Bool) (l : List Scrobble)
    (t : Nat) (h : t ∈ (l.filter p).map (fun s => s.timestamp)) :
    t ∈ l.map (fun s => s.timestamp) := by
  simp only [List.mem_map, List.mem_filter] at h ⊢
  obtain ⟨s, ⟨hs, _⟩, ht⟩ := h
  exact ⟨s, hs, ht⟩

theorem fill_gaps_apply (fetch : Gap → List Scrobble) (gaps : List Gap) :
    ∀ db, ((fetchedAll fetch gaps).map (fun s => s.timestamp)).Nodup →
      fill_gaps false fetch db gaps
        = (db ++ (fetchedAll fetch gaps).filter
            (fun s => !(existsTs db s.timestamp)),
           ((fetchedAll fetch gaps).filter
            (fun s => !(existsTs db s.timestamp))).length) := by
  induction gaps with
  | nil => intro db _; simp [fill_gaps, fetchedAll]
  | cons g gs ih =>
    intro db hnd
    have hnd' : ((fetch g ++ fetchedAll fetch gs).map
        (fun s => s.timestamp)).Nodup := hnd
    rw [List.map_append, List.nodup_append] at hnd'
    obtain ⟨hA, hR, hdisj⟩ := hnd'
    have hfe : (fetchedAll fetch gs).filter
        (fun x => !(existsTs (db ++ (fetch g).filter
          (fun s => !(existsTs db s.timestamp))) x.timestamp))
        = (fetchedAll fetch gs).filter
            (fun x => !(existsTs db x.timestamp)) := by
      apply List.filter_congr
      intro x hx
      have hxmem : x.timestamp ∈ (fetchedAll fetch gs).map
          (fun s => s.timestamp) := List.mem_map_of_mem _ hx
      have hnotA : x.timestamp ∉ ((fetch g).filter
          (fun s => !(existsTs db s.timestamp))).map
            (fun s => s.timestamp) := by
        intro hmem
        exact hdisj (map_ts_filter_subset _ _ _ hmem) hxmem
      rw [existsTs_append,
        (existsTs_eq_false_iff _ _).mpr hnotA, Bool.or_false]
    simp only [fill_gaps, fetchedAll]
    rw [fillOne_apply (fetch g) db hA]
    simp only []
    rw [ih (db ++ (fetch g).filter (fun s => !(existsTs db s.timestamp))) hR,
      hfe]
    simp [List.filter_append, List.append_assoc]

theorem foldr_max_bounds (l : List Nat) (b : Nat) :
    b ≤ l.foldr max b ∧ (∀ x ∈ l, x ≤ l.foldr max b) ∧
    (l.foldr max b = b ∨ l.foldr max b ∈ l) := by
  induction l with
  | nil => exact ⟨le_refl _, by simp, Or.inl rfl⟩
  | cons a l ih =>
    obtain ⟨h1, h2, h3⟩ := ih
    refine ⟨le_trans h1 (le_max_right a _), ?_, ?_⟩
    · intro x hx
      rcases List.mem_cons.mp hx with rfl | hx
      · exact le_max_left _ _
      · exact le_trans (h2 x hx) (le_max_right _ _)
    · rcases max_choice a (l.foldr max b) with hm | hm
      · rw [List.foldr_cons, hm]
        exact Or.inr (List.mem_cons_self a l)
      · rw [List.foldr_cons, hm]
        rcases h3 with h | h
        · exact Or.inl h
        · exact Or.inr (List.mem_cons_of_mem a h)

/-- Claim C1, counterexample.  The claim's stop condition (c) is "the store
was non-empty before the run", but the code (`app.py` line 241) tests
`latest_timestamp > 0`.  On the non-empty store `[⟨… timestamp 0⟩]` the
pre-run latest timestamp is 0, so at an already-stored event whose counter
has just reached the threshold of 50, with an incremental run and the
event's timestamp ≤ the pre-run latest, all four conditions of the claim
hold — yet the walk does not stop. -/
theorem C1_counterexample :
    ([fixtureScrobble "A" 0] ≠ ([] : List Scrobble)) ∧
    (fixtureTrack "A" 0).nowplaying = false ∧
    existsTs [fixtureScrobble "A" 0] (fixtureTrack "A" 0).s.timestamp = true ∧
    CONSECUTIVE_SCROBBLES_THRESHOLD ≤ 49 + 1 ∧
    (fixtureTrack "A" 0).s.timestamp
      ≤ get_latest_timestamp [fixtureScrobble "A" 0] ∧
    (procTrack false (get_latest_timestamp [fixtureScrobble "A" 0])
        ⟨[fixtureScrobble "A" 0], 0, 49⟩ 0 (fixtureTrack "A" 0)).2.2
      = false := by
  decide

/-- Claim C1, amended: during a sync walk, processing of an event stops the
walk exactly when the event is a completed (not now-playing) already-stored
event whose consecutive-existing counter reaches the threshold of 50, the
run is incremental, the pre-run latest stored timestamp is positive (the
code's reading of "store non-empty", which differs only when every stored
timestamp is 0), and the event's timestamp is ≤ that pre-run latest;
a run of consecutive already-stored events with timestamps all strictly
greater than the pre-run latest never triggers the stop; and the count
returned by `get_scrobbles` always equals the number of records appended
to the store. -/
theorem C1_amended :
    (∀ (full : Bool) (latest : Nat) (st : SyncSt) (pn : Nat) (t : Track),
        (procTrack full latest st pn t).2.2 = true ↔
          (t.nowplaying = false ∧ existsTs st.db t.s.timestamp = true ∧
           CONSECUTIVE_SCROBBLES_THRESHOLD ≤ st.consec + 1 ∧ full = false ∧
           0 < latest ∧ t.s.timestamp ≤ latest)) ∧
    (∀ (latest : Nat) (st : SyncSt) (pn : Nat) (tracks : List Track),
        (∀ t ∈ tracks, latest < t.s.timestamp) →
          (procTracks false latest st pn tracks).2.2 = false) ∧
    (∀ (db0 : List Scrobble) (pages : Nat) (full : Bool)
        (firstReq : Option Nat) (fetch : Nat → Option (List Track)),
        (get_scrobbles db0 pages full firstReq fetch).1.length
          = db0.length + (get_scrobbles db0 pages full firstReq fetch).2) := by
  refine ⟨?_, ?_, ?_⟩
  · intro full latest st pn t
    by_cases hnp : t.nowplaying = true
    · have hLHS : (procTrack full latest st pn t).2.2 = false := by
        unfold procTrack; rw [if_pos hnp]
      rw [hLHS]
      constructor
      · intro h; exact absurd h (by simp)
      · rintro ⟨h1, -⟩
        rw [hnp] at h1; exact absurd h1 (by simp)
    · by_cases hex : existsTs st.db t.s.timestamp = true
      · by_cases hcond : CONSECUTIVE_SCROBBLES_THRESHOLD ≤ st.consec + 1 ∧
            full = false ∧ 0 < latest ∧ t.s.timestamp ≤ latest
        · have hLHS : (procTrack full latest st pn t).2.2 = true := by
            unfold procTrack; rw [if_neg hnp, if_pos hex, if_pos hcond]
          rw [hLHS]
          constructor
          · intro _
            exact ⟨by simpa using hnp, hex, hcond.1, hcond.2.1,
              hcond.2.2.1, hcond.2.2.2⟩
          · intro _; rfl
        · have hLHS : (procTrack full latest st pn t).2.2 = false := by
            unfold procTrack; rw [if_neg hnp, if_pos hex, if_neg hcond]
          rw [hLHS]
          constructor
          · intro h; exact absurd h (by simp)
          · rintro ⟨-, -, h3, h4, h5, h6⟩
            exact absurd ⟨h3, h4, h5, h6⟩ hcond
      · have hLHS : (procTrack full latest st pn t).2.2 = false := by
          unfold procTrack; rw [if_neg hnp, if_neg hex]
        rw [hLHS]
        constructor
        · intro h; exact absurd h (by simp)
        · rintro ⟨-, h2, -⟩
          exact absurd h2 hex
  · intro latest st pn tracks
    induction tracks generalizing st pn with
    | nil => intro _; simp [procTracks]
    | cons t ts ih =>
      intro h
      have ht := h t (List.mem_cons_self t ts)
      have hstop : (procTrack false latest st pn t).2.2 = false := by
        unfold procTrack
        split
        · rfl
        · split
          · split
            · rename_i hc
              exact absurd hc.2.2.2 (not_le.mpr ht)
            · rfl
          · rfl
      simp only [procTracks, hstop, Bool.false_eq_true, if_false]
      exact ih _ _ (fun t' ht' => h t' (List.mem_cons_of_mem t ht'))
  · intro db0 pages full firstReq fetch
    exact (get_scrobbles_inv db0 pages full firstReq fetch).2.2

/-- Claim C1, witness: a run of 50 consecutive already-stored events whose
timestamps (200) all exceed the pre-run latest (100) does not stop the
walk. -/
theorem C1_amended_witness :
    (procTracks false 100 ⟨[fixtureScrobble "A" 200], 0, 0⟩ 0
        (List.replicate 50 (fixtureTrack "A" 200))).2.2 = false :=
  C1_amended.2.1 100 ⟨[fixtureScrobble "A" 200], 0, 0⟩ 0
    (List.replicate 50 (fixtureTrack "A" 200)) (by decide)

/-- Claim C2: the default incremental walk is capped at 5 pages — but the
thorough variant is NOT raised to 20: `update_db.py` passes `pages = 20`
("Check 20 pages instead of 5"), yet `get_scrobbles` clamps every non-full
run to `min(total_pages, 5)`, so a thorough run against a 100-page remote
history still walks only 5 pages. -/
theorem C2_pageCeiling :
    thoroughPagesArg 0 = 20 ∧
    effectivePages 100 (thoroughPagesArg 0) false = 5 ∧
    effectivePages 100 0 false = 5 ∧
    (∀ totalPages pages : Nat, effectivePages totalPages pages false ≤ 5) := by
  refine ⟨rfl, rfl, rfl, ?_⟩
  intro tp p
  unfold effectivePages
  simp only [Bool.false_eq_true, if_false]
  exact Nat.min_le_right _ 5

/-- Claim C3, counterexample: when the remote returns the same timestamp
twice for a gap (here two copies of an event with timestamp 5 absent from
the empty store), the dry run counts it twice (2) while the apply run
inserts it once and counts 1. -/
theorem C3_counterexample :
    (fill_gaps true (fun _ => [fixtureScrobble "A" 5, fixtureScrobble "A" 5])
        [] [⟨9000, 5100, 3900⟩]).2 = 2 ∧
    (fill_gaps false (fun _ => [fixtureScrobble "A" 5, fixtureScrobble "A" 5])
        [] [⟨9000, 5100, 3900⟩]).2 = 1 ∧
    (2 : Nat) ≠ 1 := by
  decide

/-- Claim C3, amended: the dry-run count equals the apply-run count over
the same gaps, store and remote responses, provided the events fetched
across the whole run carry pairwise-distinct timestamps; when a timestamp
absent from the store is fetched more than once, the dry run counts each
occurrence while the apply run inserts and counts it once. -/
theorem C3_amended (fetch : Gap → List Scrobble) (db : List Scrobble)
    (gaps : List Gap)
    (h : ((fetchedAll fetch gaps).map (fun s => s.timestamp)).Nodup) :
    (fill_gaps true fetch db gaps).2 = (fill_gaps false fetch db gaps).2 := by
  rw [fill_gaps_dry fetch gaps db, fill_gaps_apply fetch gaps db h]

/-- Claim C3, witness: a duplicate-free fetched range gives equal dry and
apply counts. -/
theorem C3_amended_witness :
    ((fetchedAll (fun _ => [fixtureScrobble "A" 5]) [⟨9000, 5100, 3900⟩]).map
        (fun s => s.timestamp)).Nodup ∧
    (fill_gaps true (fun _ => [fixtureScrobble "A" 5]) []
        [⟨9000, 5100, 3900⟩]).2
      = (fill_gaps false (fun _ => [fixtureScrobble "A" 5]) []
          [⟨9000, 5100, 3900⟩]).2 :=
  ⟨by decide, C3_amended (fun _ => [fixtureScrobble "A" 5]) []
    [⟨9000, 5100, 3900⟩] (by decide)⟩

/-- Claim C4: starting from a store satisfying the timestamp-uniqueness
constraint, any sequence of sync and backfill operations preserves it, and
the original rows survive unchanged as a prefix of the final store (inserts
only append); moreover processing an event whose timestamp is already
present leaves the store untouched in both the sync walk and the backfill
loop (insert-if-absent, never update-in-place). -/
theorem C4_thm (ops : List Op) (db0 : List Scrobble) (h : UniqueTs db0) :
    (UniqueTs (runOps db0 ops) ∧ ∃ rest, runOps db0 ops = db0 ++ rest) ∧
    (∀ (full : Bool) (latest : Nat) (st : SyncSt) (pn : Nat) (t : Track),
        existsTs st.db t.s.timestamp = true →
          (procTrack full latest st pn t).1.db = st.db) ∧
    (∀ (dry : Bool) (db : List Scrobble) (s : Scrobble) (ss : List Scrobble),
        existsTs db s.timestamp = true →
          fillOne dry db (s :: ss) = fillOne dry db ss) := by
  have main : ∀ (ops : List Op) (db0 : List Scrobble), UniqueTs db0 →
      UniqueTs (runOps db0 ops) ∧ ∃ rest, runOps db0 ops = db0 ++ rest := by
    intro ops
    induction ops with
    | nil =>
      intro db0 h0
      exact ⟨h0, ⟨[], by simp [runOps]⟩⟩
    | cons op ops ih =>
      intro db0 h0
      have hstep : UniqueTs (applyOp db0 op) ∧
          ∃ r, applyOp db0 op = db0 ++ r := by
        cases op with
        | sync pages full firstReq fetch =>
          obtain ⟨he, hu, -⟩ := get_scrobbles_inv db0 pages full firstReq fetch
          exact ⟨hu h0, he⟩
        | backfill dry fetch gaps =>
          obtain ⟨he, hu⟩ := fill_gaps_inv dry fetch gaps db0
          exact ⟨hu h0, he⟩
      obtain ⟨hu1, r1, hr1⟩ := hstep
      obtain ⟨hu2, r2, hr2⟩ := ih (applyOp db0 op) hu1
      refine ⟨by simpa [runOps] using hu2, ⟨r1 ++ r2, ?_⟩⟩
      show runOps (applyOp db0 op) ops = db0 ++ (r1 ++ r2)
      rw [hr2, hr1, List.append_assoc]
  refine ⟨main ops db0 h, ?_, ?_⟩
  · intro full latest st pn t hex
    unfold procTrack
    split
    · rfl
    · split <;> rfl
  · intro dry db s ss hex
    simp [fillOne, hex]

/-- Claim C4, witness: the two-operation fixture sequence on the empty
store. -/
theorem C4_witness :
    UniqueTs ([] : List Scrobble) ∧
    ((UniqueTs (runOps [] opsFixture) ∧
        ∃ rest, runOps [] opsFixture = [] ++ rest) ∧
      (∀ (full : Bool) (latest : Nat) (st : SyncSt) (pn : Nat) (t : Track),
          existsTs st.db t.s.timestamp = true →
            (procTrack full latest st pn t).1.db = st.db) ∧
      (∀ (dry : Bool) (db : List Scrobble) (s : Scrobble)
          (ss : List Scrobble),
          existsTs db s.timestamp = true →
            fillOne dry db (s :: ss) = fillOne dry db ss)) :=
  ⟨by decide, C4_thm opsFixture [] (by decide)⟩

/-- Claim C5: the adjacent-pair scan of `find_timestamp_gaps` emits a gap
exactly for the adjacent pairs of the descending timestamp list whose
difference strictly exceeds the threshold; on stored timestamps
[1000, 5000, 5100, 9000] with threshold 3600 it reports exactly the two
gaps (9000, 5100) of magnitude 3900 and (5000, 1000) of magnitude 4000,
and not the (5100, 5000) pair of magnitude 100. -/
theorem C5_thm :
    (∀ (threshold : Int) (l : List Nat),
        gapsOf threshold l
          = ((l.zip l.tail).filter
              (fun p => threshold < (p.1 : Int) - (p.2 : Int))).map
              (fun p => ⟨p.1, p.2, (p.1 : Int) - (p.2 : Int)⟩)) ∧
    find_timestamp_gaps [fixtureScrobble "A" 1000, fixtureScrobble "B" 5000,
        fixtureScrobble "C" 5100, fixtureScrobble "D" 9000] 0 3600
      = [⟨9000, 5100, 3900⟩, ⟨5000, 1000, 4000⟩] := by
  constructor
  · intro threshold l
    induction l with
    | nil => rfl
    | cons a l ih =>
      cases l with
      | nil => rfl
      | cons b rest =>
        by_cases hgt : threshold < (a : Int) - (b : Int)
        · simp [gapsOf, hgt, ih]
        · simp [gapsOf, hgt, ih]
  · decide

/-- Claim C6: in an incremental (non-full) walk, a page whose processing
inserted zero new events ends the walk right after that page — the
remaining pages make no difference; this holds for every walk state, in
particular when the consecutive-existing counter is below its threshold. -/
theorem C6_thm (latest : Nat) (st : SyncSt) (tracks : List Track)
    (ps : List (Option (List Track)))
    (h : (procTracks false latest st 0 tracks).2.1 = 0) :
    procPages false latest st (some tracks :: ps)
      = (procTracks false latest st 0 tracks).1 := by
  simp only [procPages]
  split
  · rfl
  · rw [if_pos ⟨trivial, h⟩]

/-- Claim C6, witness: one already-stored event on the first page (zero new
inserts, counter far below 50) stops the walk even though a second page
with a genuinely new event follows. -/
theorem C6_witness :
    procPages false 100 ⟨[fixtureScrobble "A" 50], 0, 0⟩
        (some [fixtureTrack "A" 50] :: [some [fixtureTrack "B" 60]])
      = (procTracks false 100 ⟨[fixtureScrobble "A" 50], 0, 0⟩ 0
          [fixtureTrack "A" 50]).1 :=
  C6_thm 100 ⟨[fixtureScrobble "A" 50], 0, 0⟩ [fixtureTrack "A" 50]
    [some [fixtureTrack "B" 60]] (by decide)

/-- Claim C7, counterexample: in the gap-backfill range fetch, a transient
failure on page 2 of 3 does NOT merely skip that page — the loop breaks,
and the event of the still-available page 3 is lost from the result. -/
theorem C7_counterexample :
    fetch_scrobbles_in_range flakyRangeOracle 10 = [fixtureScrobble "A" 100] ∧
    flakyRangeOracle 3 = some ([fixtureTrack "C" 300], 3) ∧
    fixtureScrobble "C" 300 ∉ fetch_scrobbles_in_range flakyRangeOracle 10 := by
  decide

/-- Claim C7, amended: the two paginated walks handle page errors
differently.  In the sync walk, a failed in-loop page is skipped and the
walk continues, and only the initial (first) request's failure aborts the
run with 0; in the gap-backfill range fetch, a failed page ends the loop,
keeping only the scrobbles collected before it. -/
theorem C7_amended :
    (∀ (full : Bool) (latest : Nat) (st : SyncSt)
        (ps : List (Option (List Track))),
        procPages full latest st (none :: ps) = procPages full latest st ps) ∧
    (∀ (db0 : List Scrobble) (pages : Nat) (full : Bool)
        (fetch : Nat → Option (List Track)),
        get_scrobbles db0 pages full none fetch = (db0, 0)) ∧
    (∀ (f : Nat → Option (List Track × Nat)) (acc : List Scrobble)
        (page fuel : Nat), f page = none →
          fetchRangeLoop f acc page (fuel + 1) = acc) := by
  refine ⟨fun _ _ _ _ => rfl, fun _ _ _ _ => rfl, ?_⟩
  intro f acc page fuel h
  simp [fetchRangeLoop, h]

/-- Claim C7, witness: the flaky oracle's failing page 2 ends the range
fetch loop immediately. -/
theorem C7_amended_witness :
    fetchRangeLoop flakyRangeOracle [] 2 5 = [] :=
  C7_amended.2.2 flakyRangeOracle [] 2 4 (by decide)

/-- Claim C8: for every store, fuzzy oracle and limit, a query shorter than
2 characters yields the empty result list (an ordinary return, not an
error); and on a store containing the artist "Lüt", the query "lut" hits
the tier-1 case- and accent-insensitive substring match (NFD decomposition
with combining marks stripped) and is returned with similarity exactly
100, whatever the fuzzy oracle would say. -/
theorem C8_thm :
    (∀ (fz : String → List String → Nat → List (String × Nat))
        (db : List Scrobble) (q : String) (limit : Nat),
        q.length < 2 → search_artists fz db q limit = []) ∧
    (∀ fz, search_artists fz [Scrobble.mk "Lüt" "" "" "" "Song" "" 1] "lut" 10
        = [SearchResult.mk "Lüt" 1 100]) := by
  constructor
  · intro fz db q limit h
    unfold search_artists
    rw [if_pos h]
  · intro fz
    rfl

/-- Claim C8, witness: the one-character query "x" returns no results on a
non-empty store. -/
theorem C8_witness :
    search_artists (fun _ _ _ => [])
        [Scrobble.mk "Lüt" "" "" "" "Song" "" 1] "x" 3 = [] :=
  C8_thm.1 (fun _ _ _ => []) [Scrobble.mk "Lüt" "" "" "" "Song" "" 1] "x" 3
    (by decide)

/-- Claim C9, counterexample: on the empty store the code returns the
sentinel integer 0, not none — `get_latest_timestamp` is
`int(result) if result else 0`, so its value on the empty store disagrees
with the spec's `int | none` contract. -/
theorem C9_counterexample :
    get_latest_timestamp [] = 0 ∧
    latestTimestamp_spec [] = none ∧
    some (get_latest_timestamp []) ≠ latestTimestamp_spec [] := by
  decide

/-- Claim C9, amended: `get_latest_timestamp` returns the maximum stored
timestamp when the store is non-empty (an upper bound that is attained),
and the sentinel 0 — not none — when the store is empty; it agrees with
the spec's optional-valued contract through `Option.getD 0`. -/
theorem C9_amended (db : List Scrobble) :
    (db = [] → get_latest_timestamp db = 0) ∧
    (∀ s ∈ db, s.timestamp ≤ get_latest_timestamp db) ∧
    (db ≠ [] → ∃ s ∈ db, get_latest_timestamp db = s.timestamp) ∧
    get_latest_timestamp db = (latestTimestamp_spec db).getD 0 := by
  cases db with
  | nil =>
    exact ⟨fun _ => rfl, by simp, fun h => absurd rfl h, rfl⟩
  | cons s rest =>
    obtain ⟨h1, h2, h3⟩ :=
      foldr_max_bounds (rest.map (fun x => x.timestamp)) s.timestamp
    have hval : get_latest_timestamp (s :: rest)
        = (rest.map (fun x => x.timestamp)).foldr max s.timestamp := rfl
    refine ⟨fun hemp => absurd hemp (List.cons_ne_nil s rest), ?_,
      fun _ => ?_, rfl⟩
    · intro x hx
      rcases List.mem_cons.mp hx with rfl | hx
      · rw [hval]; exact h1
      · rw [hval]; exact h2 _ (List.mem_map_of_mem _ hx)
    · rcases h3 with hm | hm
      · exact ⟨s, List.mem_cons_self s rest, by rw [hval, hm]⟩
      · rw [List.mem_map] at hm
        obtain ⟨x, hx, hxe⟩ := hm
        exact ⟨x, List.mem_cons_of_mem s hx, by rw [hval, ← hxe]⟩

/-- Claim C9, witness: on a concrete two-row store the returned value is an
attained maximum, and on the empty store it is 0. -/
theorem C9_amended_witness :
    (∃ s ∈ [fixtureScrobble "A" 3, fixtureScrobble "B" 7],
        get_latest_timestamp [fixtureScrobble "A" 3, fixtureScrobble "B" 7]
          = s.timestamp) ∧
    get_latest_timestamp ([] : List Scrobble) = 0 :=
  ⟨(C9_amended [fixtureScrobble "A" 3, fixtureScrobble "B" 7]).2.2.1
      (by decide),
    (C9_amended []).1 rfl⟩

/-- Claim C10: whenever the lookback window holds fewer than two
timestamps — in particular on an entirely empty store — the gap scan has
no adjacent pair and returns the empty gap list. -/
theorem C10_thm (db : List Scrobble) (cutoff : Nat) (threshold : Int)
    (h : (windowTimestamps db cutoff).length < 2) :
    find_timestamp_gaps db cutoff threshold = [] := by
  have hg : ∀ l : List Nat, l.length < 2 → gapsOf threshold l = [] := by
    intro l hl
    cases l with
    | nil => rfl
    | cons a l' =>
      cases l' with
      | nil => rfl
      | cons b r =>
        simp only [List.length_cons] at hl
        exact absurd hl (by omega)
  unfold find_timestamp_gaps
  exact hg _ h

/-- Claim C10, witness: a one-row store whose single timestamp falls below
the cutoff yields an empty window and no gaps. -/
theorem C10_witness :
    find_timestamp_gaps [fixtureScrobble "A" 7] 10 3600 = [] :=
  C10_thm [fixtureScrobble "A" 7] 10 3600 (by decide)
